import Mathlib

/-
Verification of the build-orchestration script at src/script/build.py.

The script's only non-trivial logic is the function js_workaround_patcher,
which applies two Python regular-expression substitutions and one
unconditional append to the textual contents of a generated artifact:

  code       = re.sub(r'(?ms)if \(\(typeof URL.*}\);', 'return imports', code)
  code       = re.sub(r'(?ms)if \(typeof module.*let result', 'let result', code)
  after_load = 'export function after_load(w,m) ...'
  code       = f'{code}\n{after_load}'

Both patterns have the shape LITERAL-START, then greedy dot-star with the
DOTALL flag, then LITERAL-END.  Python's re.sub replaces every
non-overlapping match, scanning left to right; for a pattern of this shape
a match starts at the first occurrence of the start literal that has an
occurrence of the end literal after it, and the greedy dot-star extends the
match to the END of the LAST occurrence of the end literal in the rest of
the text.  Artifact text is modelled as List Char.  The surrounding
orchestration (subprocess calls, file moves, the directory copy) is
modelled below as a function over an explicit environment.
-/

/-- Index of the first occurrence of the pattern p in s: the least k such
that p is a prefix of s.drop k, or none if there is no such k.  Used to
model where a Python regex match of the form LITERAL followed by dot-star
can begin. -/
def firstOcc (p : List Char) : List Char → Option Nat
  | [] => if p <+: ([] : List Char) then some 0 else none
  | c :: t => if p <+: (c :: t) then some 0 else (firstOcc p t).map (fun n => n + 1)

/-- Index of the last occurrence of the pattern p in s: the greatest k such
that p is a prefix of s.drop k, or none.  Used to model how far a greedy
DOTALL dot-star followed by the literal p extends. -/
def lastOcc (p : List Char) : List Char → Option Nat
  | [] => if p <+: ([] : List Char) then some 0 else none
  | c :: t =>
    match lastOcc p t with
    | some j => some (j + 1)
    | none => if p <+: (c :: t) then some 0 else none

/-- Leftmost greedy match of the Python regex PATTERN = P , dot-star
(DOTALL) , S in the text, returned as some (start, stop) with the matched
span being the half-open index interval from start to stop.  The match
starts at the first occurrence of P; the greedy dot-star extends the match
to the end of the last occurrence of S at or after the end of that P.  If P
does not occur, or no S occurs after the first P, the regex has no match
anywhere: a later P occurrence would need an S occurrence even further
right. -/
def greedyMatch (P S text : List Char) : Option (Nat × Nat) :=
  match firstOcc P text with
  | none => none
  | some i =>
    match lastOcc S (text.drop (i + P.length)) with
    | none => none
    | some j => some (i, i + P.length + j + S.length)

/-- Fuelled worker for reSubGreedy: repeatedly replace the leftmost greedy
match, continuing after the replacement, exactly as Python's re.sub scans
for further non-overlapping matches.  The fuel bounds the number of
replacements; each match of the patterns used here consumes at least one
character, so fuel equal to the text length plus one is never exhausted. -/
def reSubGreedyAux (P S repl : List Char) : Nat → List Char → List Char
  | 0, text => text
  | fuel + 1, text =>
    match greedyMatch P S text with
    | none => text
    | some (i, e) => text.take i ++ repl ++ reSubGreedyAux P S repl fuel (text.drop e)

/-- Model of Python re.sub applied to a pattern of the shape P , dot-star
(DOTALL, greedy) , S with a literal replacement string: every
non-overlapping match, found left to right, is replaced. -/
def reSubGreedy (P S repl text : List Char) : List Char :=
  reSubGreedyAux P S repl (text.length + 1) text

/-- Literal start of the first rule's pattern, from the regex
r'(?ms)if \(\(typeof URL.*}\);' in src/script/build.py line 31. -/
def urlPatStart : List Char := ("if ((typeof URL").toList

/-- Literal end of the first rule's pattern, the three characters
closing-brace, closing-parenthesis, semicolon. -/
def urlPatEnd : List Char := ("\x7d);").toList

/-- Replacement text of the first rule. -/
def returnImports : List Char := ("return imports").toList

/-- Literal start of the second rule's pattern, from the regex
r'(?ms)if \(typeof module.*let result' in src/script/build.py line 32. -/
def modPatStart : List Char := ("if (typeof module").toList

/-- Literal end of the second rule's pattern. -/
def modPatEnd : List Char := ("let result").toList

/-- Replacement text of the second rule. -/
def letResult : List Char := ("let result").toList

/-- Text block appended unconditionally by js_workaround_patcher,
the after_load local variable of src/script/build.py line 33. -/
def after_load : List Char :=
  ("export function after_load(w,m) \x7b wasm = w; init.__wbindgen_wasm_module = m;\x7d").toList

/-- First rewrite rule of js_workaround_patcher, src/script/build.py
line 31. -/
def rule1 (code : List Char) : List Char :=
  reSubGreedy urlPatStart urlPatEnd returnImports code

/-- Second rewrite rule of js_workaround_patcher, src/script/build.py
line 32. -/
def rule2 (code : List Char) : List Char :=
  reSubGreedy modPatStart modPatEnd letResult code

/-- Embedding of js_workaround_patcher, src/script/build.py lines 30 to 35:
rule 2 is applied to the output of rule 1, then a newline and the
after_load block are appended unconditionally. -/
def js_workaround_patcher (code : List Char) : List Char :=
  rule2 (rule1 code) ++ '\n' :: after_load

/-- Contents of a directory, as a partial map from file name to file
contents. -/
abbrev Dir : Type := String → Option (List Char)

/-- Environment of one run of main, src/script/build.py lines 38 to 57:
the exit statuses of the two external subprocesses, the files that a
successful wasm-pack run leaves in target/web, the files already present
in the destination directory app/src-rust-gen, and the (abstract)
compression function of the external gzip program. -/
structure Env where
  wasmPackExit : Nat
  gzipExit : Nat
  wasmPackOut : Dir
  appDest : Dir
  gzipData : List Char → List Char

/-- Errors that abort main: subprocess.check_call raises
CalledProcessError when the subprocess exits non-zero, and the file
operations raise an I/O error when a file is missing. -/
inductive BuildError where
  | calledProcessError (cmd : String) (returncode : Nat)
  | fileNotFound (path : String)

/-- Final state after a successful run of main: the contents of target/web
and of the destination directory app/src-rust-gen. -/
structure BuildResult where
  targetWeb : Dir
  appDest : Dir

/-- Update one entry of a directory map. -/
def update (d : Dir) (p : String) (c : Option (List Char)) : Dir :=
  fun q => if q = p then c else d q

/-- Model of distutils.dir_util.copy_tree as used at src/script/build.py
line 57: every file of the source directory is copied into the
destination, overwriting an existing file of the same name; files present
only in the destination are left untouched (nothing is deleted), matching
the comment at lines 54 to 56. -/
def copy_tree (src dst : Dir) : Dir :=
  fun p =>
    match src p with
    | some c => some c
    | none => dst p

namespace build

/-- Embedding of main, src/script/build.py lines 38 to 57.  The chdir and
the prints have no modelled effect.  Steps, in order: check_call of
wasm-pack (raises CalledProcessError on non-zero exit); patch_file on
target/web/gui.js with js_workaround_patcher (read, patch, write back);
shutil.move of gui_bg.wasm to gui.wasm; check_call of gzip with the keep
flag (the uncompressed file stays, gui.wasm.gz is created); copy_tree of
target/web into app/src-rust-gen.  An uncaught exception aborts the
script immediately, so the first failing step determines the error. -/
def main (env : Env) : Except BuildError BuildResult :=
  if env.wasmPackExit ≠ 0 then
    Except.error (BuildError.calledProcessError ("wasm-pack") env.wasmPackExit)
  else
    match env.wasmPackOut ("gui.js") with
    | none => Except.error (BuildError.fileNotFound ("target/web/gui.js"))
    | some code =>
      let fs1 := update env.wasmPackOut ("gui.js") (some (js_workaround_patcher code))
      match fs1 ("gui_bg.wasm") with
      | none => Except.error (BuildError.fileNotFound ("target/web/gui_bg.wasm"))
      | some wasm =>
        let fs2 := update (update fs1 ("gui_bg.wasm") none) ("gui.wasm") (some wasm)
        if env.gzipExit ≠ 0 then
          Except.error (BuildError.calledProcessError ("gzip") env.gzipExit)
        else
          let fs3 := update fs2 ("gui.wasm.gz") (some (env.gzipData wasm))
          Except.ok (BuildResult.mk fs3 (copy_tree fs3 env.appDest))

end build

/-- Exit status of one invocation of the script: 0 when main returns
normally; 1 when an exception propagates out of main, because CPython
terminates with exit status 1 on an uncaught exception (the
CalledProcessError of the failing subprocess is not caught anywhere in
src/script/build.py). -/
def scriptExit (env : Env) : Nat :=
  match build.main env with
  | Except.ok _ => 0
  | Except.error _ => 1

/-- Observable record of which subprocess call failed, extracted from the
propagated CalledProcessError. -/
def failedCmd (env : Env) : Option (String × Nat) :=
  match build.main env with
  | Except.error (BuildError.calledProcessError c r) => some (c, r)
  | _ => none

/-- Concrete environment in which wasm-pack succeeds and gzip exits with
status 2. -/
def envGzipFail : Env :=
  { wasmPackExit := 0
    gzipExit := 2
    wasmPackOut := fun p =>
      if p = "gui.js" then some [] else if p = "gui_bg.wasm" then some ('w' :: []) else none
    appDest := fun _ => none
    gzipData := fun c => c }

/-- Concrete environment for the directory-copy scenario: the destination
already holds a file X absent from target/web and a file Y also produced
into target/web with different content. -/
def envC9 : Env :=
  { wasmPackExit := 0
    gzipExit := 0
    wasmPackOut := fun p =>
      if p = "gui.js" then some []
      else if p = "gui_bg.wasm" then some ('w' :: [])
      else if p = "Y" then some ('s' :: [])
      else none
    appDest := fun p =>
      if p = "X" then some ('x' :: []) else if p = "Y" then some ('d' :: []) else none
    gzipData := fun c => c }

/-- Successful build result of envC9. -/
def stC9 : BuildResult :=
  match build.main envC9 with
  | Except.ok st => st
  | Except.error _ => BuildResult.mk (fun _ => none) (fun _ => none)

theorem firstOcc_prefix (p : List Char) :
    ∀ (s : List Char) (i : Nat), firstOcc p s = some i → p <+: s.drop i := by
  intro s
  induction s with
  | nil =>
    intro i h
    simp only [firstOcc] at h
    by_cases hc : p <+: ([] : List Char)
    · rw [if_pos hc] at h; cases h; simpa using hc
    · rw [if_neg hc] at h; cases h
  | cons c t ih =>
    intro i h
    simp only [firstOcc] at h
    by_cases hc : p <+: (c :: t)
    · rw [if_pos hc] at h; cases h; simpa using hc
    · rw [if_neg hc] at h
      rcases hfo : firstOcc p t with _ | j
      · rw [hfo] at h; cases h
      · rw [hfo] at h
        simp only [Option.map_some'] at h
        cases h
        simpa using ih j hfo

theorem lastOcc_prefix (p : List Char) :
    ∀ (s : List Char) (j : Nat), lastOcc p s = some j → p <+: s.drop j := by
  intro s
  induction s with
  | nil =>
    intro j h
    simp only [lastOcc] at h
    by_cases hc : p <+: ([] : List Char)
    · rw [if_pos hc] at h; cases h; simpa using hc
    · rw [if_neg hc] at h; cases h
  | cons c t ih =>
    intro j h
    simp only [lastOcc] at h
    rcases hlo : lastOcc p t with _ | j0
    · rw [hlo] at h
      by_cases hc : p <+: (c :: t)
      · rw [if_pos hc] at h; cases h; simpa using hc
      · rw [if_neg hc] at h; cases h
    · rw [hlo] at h
      cases h
      simpa using ih j0 hlo

theorem lastOcc_none_no_prefix (p : List Char) :
    ∀ (s : List Char) (k : Nat), lastOcc p s = none → p <+: s.drop k → False := by
  intro s
  induction s with
  | nil =>
    intro k h hk
    rw [List.drop_nil] at hk
    rw [List.prefix_nil.mp hk] at h
    simp [lastOcc] at h
  | cons c t ih =>
    intro k h hk
    simp only [lastOcc] at h
    rcases hlo : lastOcc p t with _ | j0
    · rw [hlo] at h
      cases k with
      | zero =>
        rw [List.drop_zero] at hk
        rw [if_pos hk] at h
        cases h
      | succ k0 =>
        rw [List.drop_succ_cons] at hk
        exact ih k0 hlo hk
    · rw [hlo] at h; cases h

theorem lastOcc_le_of_prefix (p : List Char) (hp : p ≠ []) :
    ∀ (s : List Char) (j k : Nat), lastOcc p s = some j → p <+: s.drop k → k ≤ j := by
  intro s
  induction s with
  | nil =>
    intro j k h _
    simp only [lastOcc] at h
    by_cases hc : p <+: ([] : List Char)
    · exact absurd (List.prefix_nil.mp hc) hp
    · rw [if_neg hc] at h; cases h
  | cons c t ih =>
    intro j k h hk
    simp only [lastOcc] at h
    rcases hlo : lastOcc p t with _ | j0
    · rw [hlo] at h
      by_cases hc : p <+: (c :: t)
      · rw [if_pos hc] at h
        cases h
        cases k with
        | zero => exact Nat.le_refl 0
        | succ k0 =>
          rw [List.drop_succ_cons] at hk
          exact absurd hk (fun hpre => lastOcc_none_no_prefix p t k0 hlo hpre)
      · rw [if_neg hc] at h; cases h
    · rw [hlo] at h
      cases h
      cases k with
      | zero => exact Nat.zero_le _
      | succ k0 =>
        rw [List.drop_succ_cons] at hk
        exact Nat.succ_le_succ (ih j0 k0 hlo hk)

theorem drop_append_len (a b : List Char) : ∀ (n : Nat), (a ++ b).drop (a.length + n) = b.drop n := by
  induction a with
  | nil => intro n; simp
  | cons c t ih =>
    intro n
    have harith : (c :: t).length + n = (t.length + n) + 1 := by
      simp [List.length_cons]; omega
    rw [harith, List.cons_append, List.drop_succ_cons, ih]

theorem take_append_len (a b : List Char) : ∀ (n : Nat), (a ++ b).take (a.length + n) = a ++ b.take n := by
  induction a with
  | nil => intro n; simp
  | cons c t ih =>
    intro n
    have harith : (c :: t).length + n = (t.length + n) + 1 := by
      simp [List.length_cons]; omega
    rw [harith, List.cons_append, List.take_succ_cons, ih, List.cons_append]

theorem getElem_append_lt (a b : List Char) (k : Nat) (h : k < a.length) :
    (a ++ b)[k]? = a[k]? := by
  rw [List.getElem?_append]
  exact if_pos h

theorem getElem_append_ge (a b : List Char) (k : Nat) (h : a.length ≤ k) :
    (a ++ b)[k]? = b[k - a.length]? := by
  rw [List.getElem?_append]
  rw [if_neg (by omega)]

theorem getElem_take_lt (l : List Char) : ∀ (n k : Nat), k < n → (l.take n)[k]? = l[k]? := by
  induction l with
  | nil => intro n k _; simp
  | cons c t ih =>
    intro n k hk
    cases n with
    | zero => omega
    | succ n0 =>
      rw [List.take_succ_cons]
      cases k with
      | zero => simp
      | succ k0 =>
        simp only [List.getElem?_cons_succ]
        exact ih n0 k0 (by omega)

theorem greedyMatch_some_elim {P S text : List Char} {i e : Nat}
    (h : greedyMatch P S text = some (i, e)) :
    ∃ j, firstOcc P text = some i ∧ lastOcc S (text.drop (i + P.length)) = some j ∧
      e = i + P.length + j + S.length := by
  rcases hfo : firstOcc P text with _ | i0
  · simp [greedyMatch, hfo] at h
  · rcases hlo : lastOcc S (text.drop (i0 + P.length)) with _ | j0
    · simp [greedyMatch, hfo, hlo] at h
    · simp only [greedyMatch, hfo, hlo, Option.some.injEq, Prod.mk.injEq] at h
      obtain ⟨hi, he⟩ := h
      subst hi
      exact ⟨j0, rfl, hlo, he.symm⟩

/-- Crucial structural fact behind single-substitution behavior: after a
greedy match has been removed, no further match of the same pattern exists
in the remaining tail, because the greedy dot-star already extended to the
last occurrence of the end literal S. -/
theorem greedyMatch_drop_none {P S text : List Char} {i e : Nat} (hS : S ≠ [])
    (h : greedyMatch P S text = some (i, e)) : greedyMatch P S (text.drop e) = none := by
  obtain ⟨j, hfo, hlo, he⟩ := greedyMatch_some_elim h
  rcases hg : greedyMatch P S (text.drop e) with _ | p2
  · rfl
  · exfalso
    obtain ⟨i2, e2⟩ := p2
    obtain ⟨j2, hfo2, hlo2, he2⟩ := greedyMatch_some_elim hg
    have hpre := lastOcc_prefix S _ _ hlo2
    rw [List.drop_drop, List.drop_drop] at hpre
    have hidx : e + (i2 + P.length + j2) =
        (i + P.length) + (j + S.length + i2 + P.length + j2) := by omega
    rw [hidx, ← List.drop_drop] at hpre
    have hle := lastOcc_le_of_prefix S hS _ _ _ hlo hpre
    have hSpos : 0 < S.length := List.length_pos.mpr hS
    omega

theorem reSubGreedyAux_no_match (P S repl : List Char) (f : Nat) (text : List Char)
    (h : greedyMatch P S text = none) : reSubGreedyAux P S repl f text = text := by
  cases f with
  | zero => rfl
  | succ f0 => simp [reSubGreedyAux, h]

theorem reSubGreedy_no_match {P S repl text : List Char}
    (h : greedyMatch P S text = none) : reSubGreedy P S repl text = text :=
  reSubGreedyAux_no_match P S repl (text.length + 1) text h

/-- When the pattern matches, re.sub replaces exactly the one greedy match:
the prefix before the match and the tail after it are copied verbatim, and
the tail admits no further match. -/
theorem reSubGreedy_match {P S repl text : List Char} {i e : Nat} (hS : S ≠ [])
    (h : greedyMatch P S text = some (i, e)) :
    reSubGreedy P S repl text = text.take i ++ repl ++ text.drop e := by
  unfold reSubGreedy
  rw [show text.length + 1 = Nat.succ text.length from rfl]
  simp only [reSubGreedyAux, h]
  rw [reSubGreedyAux_no_match P S repl text.length (text.drop e) (greedyMatch_drop_none hS h)]

theorem greedyMatch_start_lt {P S text : List Char} {i e : Nat} (hP : P ≠ [])
    (h : greedyMatch P S text = some (i, e)) : i < text.length := by
  obtain ⟨j, hfo, _, _⟩ := greedyMatch_some_elim h
  have hpre := firstOcc_prefix P text i hfo
  by_contra hge
  push_neg at hge
  rw [List.drop_eq_nil_of_le hge] at hpre
  exact hP (List.prefix_nil.mp hpre)

theorem match_char_at_start {P S text : List Char} {i e : Nat} {c : Char}
    (h : greedyMatch P S text = some (i, e)) (hc : P[0]? = some c) : text[i]? = some c := by
  obtain ⟨j, hfo, _, _⟩ := greedyMatch_some_elim h
  obtain ⟨r, hr⟩ := firstOcc_prefix P text i hfo
  have hP : P ≠ [] := by intro hnil; rw [hnil] at hc; cases hc
  have hlen : 0 < P.length := List.length_pos.mpr hP
  have h0 : (text.drop i)[0]? = some c := by
    rw [← hr, getElem_append_lt P r 0 hlen]
    exact hc
  rw [List.getElem?_drop] at h0
  simpa using h0

theorem reSubGreedy_replaced_char {P S repl text : List Char} {i e : Nat} {d : Char}
    (hS : S ≠ []) (hP : P ≠ [])
    (h : greedyMatch P S text = some (i, e)) (hd : repl[0]? = some d) :
    (reSubGreedy P S repl text)[i]? = some d := by
  rw [reSubGreedy_match hS h]
  have hi := greedyMatch_start_lt hP h
  have hlen : (text.take i).length = i := by
    rw [List.length_take]
    omega
  have hrepl : 0 < repl.length := by
    have : repl ≠ [] := by intro hnil; rw [hnil] at hd; cases hd
    exact List.length_pos.mpr this
  rw [List.append_assoc, getElem_append_ge _ _ i (by rw [hlen]), hlen, Nat.sub_self,
    getElem_append_lt repl _ 0 hrepl]
  exact hd

theorem reSubGreedy_preserved_char {P S repl text : List Char} {i e k : Nat}
    (hS : S ≠ []) (hP : P ≠ [])
    (h : greedyMatch P S text = some (i, e)) (hk : k < i) :
    (reSubGreedy P S repl text)[k]? = text[k]? := by
  rw [reSubGreedy_match hS h]
  have hi := greedyMatch_start_lt hP h
  have hlen : (text.take i).length = i := by
    rw [List.length_take]
    omega
  rw [List.append_assoc, getElem_append_lt _ _ k (by rw [hlen]; exact hk)]
  exact getElem_take_lt text i k hk

theorem reSubGreedy_len_gt {P S repl text : List Char} {i e : Nat}
    (hS : S ≠ []) (hP : P ≠ []) (hrepl : repl ≠ [])
    (h : greedyMatch P S text = some (i, e)) : i < (reSubGreedy P S repl text).length := by
  rw [reSubGreedy_match hS h]
  have hi := greedyMatch_start_lt hP h
  have hrl : 0 < repl.length := List.length_pos.mpr hrepl
  simp only [List.length_append, List.length_take]
  omega

/-- Claim C1, counterexample.  The claim states that the first rewrite rule
replaces the block from the start marker to the FIRST subsequent end
marker (non-greedy), leaving the text after that first end marker
unchanged.  On an input with two end markers the rule instead consumes up
to the last one, because the Python pattern uses a greedy dot-star: the
output the claim predicts is not produced, and everything between the two
end markers is deleted. -/
theorem rule1_counterexample_nongreedy :
    rule1 (("if ((typeof URLa\x7d);b\x7d);c").toList) ≠ ("return importsb\x7d);c").toList ∧
    rule1 (("if ((typeof URLa\x7d);b\x7d);c").toList) = ("return importsc").toList := by
  constructor
  · decide
  · decide

/-- Claim C1, amended.  For every input text containing the start marker
(first occurrence at index i) with at least one occurrence of the end
marker after it, the first rewrite rule of js_workaround_patcher replaces
the block extending from the start marker to the end of the LAST such end
marker (greedy matching) with the literal replacement, leaving the prefix
before the marker and the text after that last end marker unchanged. -/
theorem rule1_replaces_to_last_end_marker (code : List Char) (i j : Nat)
    (hi : firstOcc urlPatStart code = some i)
    (hj : lastOcc urlPatEnd (code.drop (i + urlPatStart.length)) = some j) :
    rule1 code = code.take i ++ returnImports ++
      code.drop (i + urlPatStart.length + j + urlPatEnd.length) := by
  have hg : greedyMatch urlPatStart urlPatEnd code =
      some (i, i + urlPatStart.length + j + urlPatEnd.length) := by
    simp [greedyMatch, hi, hj]
  exact reSubGreedy_match (by decide) hg

/-- Claim C1, witness for the amended theorem at a concrete input with a
single end marker after the start marker. -/
theorem rule1_replaces_to_last_end_marker_witness :
    rule1 (("AAif ((typeof URLxx\x7d);yy").toList) =
      (("AAif ((typeof URLxx\x7d);yy").toList).take 2 ++ returnImports ++
        (("AAif ((typeof URLxx\x7d);yy").toList).drop
          (2 + urlPatStart.length + 2 + urlPatEnd.length) :=
  rule1_replaces_to_last_end_marker (("AAif ((typeof URLxx\x7d);yy").toList) 2 2
    (by decide) (by decide)

/-- Claim C2, counterexample.  The claim states that the second rewrite
rule replaces the block from the start marker to the FIRST subsequent
occurrence of the end marker.  On an input with two occurrences the rule
instead consumes up to the last one (greedy dot-star). -/
theorem rule2_counterexample_nongreedy :
    rule2 (("if (typeof modulealet resultblet resultc").toList) ≠
      ("let resultblet resultc").toList ∧
    rule2 (("if (typeof modulealet resultblet resultc").toList) = ("let resultc").toList := by
  constructor
  · decide
  · decide

/-- Claim C2, amended.  For every input text containing the start marker
(first occurrence at index i) with at least one occurrence of the literal
end text after it, the second rewrite rule of js_workaround_patcher
replaces the block extending from the start marker to the end of the LAST
such occurrence (greedy matching) with the literal replacement. -/
theorem rule2_replaces_to_last_let_result (code : List Char) (i j : Nat)
    (hi : firstOcc modPatStart code = some i)
    (hj : lastOcc modPatEnd (code.drop (i + modPatStart.length)) = some j) :
    rule2 code = code.take i ++ letResult ++
      code.drop (i + modPatStart.length + j + modPatEnd.length) := by
  have hg : greedyMatch modPatStart modPatEnd code =
      some (i, i + modPatStart.length + j + modPatEnd.length) := by
    simp [greedyMatch, hi, hj]
  exact reSubGreedy_match (by decide) hg

/-- Claim C2, witness for the amended theorem at a concrete input with a
single end marker after the start marker. -/
theorem rule2_replaces_to_last_let_result_witness :
    rule2 (("BBif (typeof modulexxlet resultyy").toList) =
      (("BBif (typeof modulexxlet resultyy").toList).take 2 ++ letResult ++
        (("BBif (typeof modulexxlet resultyy").toList).drop
          (2 + modPatStart.length + 2 + modPatEnd.length) :=
  rule2_replaces_to_last_let_result (("BBif (typeof modulexxlet resultyy").toList) 2 2
    (by decide) (by decide)

/-- Claim C3.  Each rewrite rule of js_workaround_patcher performs at most
one substitution on any input: either its pattern has no match and the
text is returned unchanged, or exactly the one leftmost greedy match is
replaced and the text before and after the match, in particular every
further disjoint occurrence of the pattern, is copied verbatim.  (After a
greedy match no occurrence of the end literal remains in the tail, so no
second match can exist.) -/
theorem rules_single_substitution (code : List Char) :
    (rule1 code = code ∨ ∃ i e, greedyMatch urlPatStart urlPatEnd code = some (i, e) ∧
      rule1 code = code.take i ++ returnImports ++ code.drop e) ∧
    (rule2 code = code ∨ ∃ i e, greedyMatch modPatStart modPatEnd code = some (i, e) ∧
      rule2 code = code.take i ++ letResult ++ code.drop e) := by
  constructor
  · rcases hg : greedyMatch urlPatStart urlPatEnd code with _ | p
    · exact Or.inl (reSubGreedy_no_match hg)
    · obtain ⟨i, e⟩ := p
      exact Or.inr ⟨i, e, rfl, reSubGreedy_match (by decide) hg⟩
  · rcases hg : greedyMatch modPatStart modPatEnd code with _ | p
    · exact Or.inl (reSubGreedy_no_match hg)
    · obtain ⟨i, e⟩ := p
      exact Or.inr ⟨i, e, rfl, reSubGreedy_match (by decide) hg⟩

/-- Claim C6.  For every input, the output of js_workaround_patcher is the
rewritten contents followed by a newline and the after_load block, so the
newline-prefixed append block is an exact suffix of the output. -/
theorem patcher_append_suffix (code : List Char) :
    js_workaround_patcher code = rule2 (rule1 code) ++ '\n' :: after_load ∧
    ('\n' :: after_load) <:+ js_workaround_patcher code :=
  ⟨rfl, ⟨rule2 (rule1 code), rfl⟩⟩

/-- Claim C8.  A rule whose pattern has no match leaves the text
completely unchanged (the embedding is total, so nothing is raised), and
processing continues: when neither rule matches, the output is the input
plus the unconditional final append. -/
theorem rules_skip_on_no_match (code : List Char) :
    (greedyMatch urlPatStart urlPatEnd code = none → rule1 code = code) ∧
    (greedyMatch modPatStart modPatEnd code = none → rule2 code = code) ∧
    (greedyMatch urlPatStart urlPatEnd code = none →
      greedyMatch modPatStart modPatEnd code = none →
      js_workaround_patcher code = code ++ '\n' :: after_load) := by
  refine ⟨fun h1 => reSubGreedy_no_match h1, fun h2 => reSubGreedy_no_match h2, fun h1 h2 => ?_⟩
  show rule2 (rule1 code) ++ '\n' :: after_load = code ++ '\n' :: after_load
  rw [show rule1 code = code from reSubGreedy_no_match h1,
    show rule2 code = code from reSubGreedy_no_match h2]

/-- Claim C8, witness: on a text containing neither marker, both rules are
skipped and only the final append happens. -/
theorem rules_skip_on_no_match_witness :
    rule1 (("hello").toList) = ("hello").toList ∧
    rule2 (("hello").toList) = ("hello").toList ∧
    js_workaround_patcher (("hello").toList) = ("hello").toList ++ '\n' :: after_load :=
  ⟨(rules_skip_on_no_match (("hello").toList)).1 (by decide),
    (rules_skip_on_no_match (("hello").toList)).2.1 (by decide),
    (rules_skip_on_no_match (("hello").toList)).2.2 (by decide) (by decide)⟩

/-- Claim C10.  On the empty artifact neither rule matches, and the
patcher returns exactly a newline followed by the after_load definition;
moreover the output is non-empty for every input, because the final
append is unconditional. -/
theorem patcher_empty_input :
    js_workaround_patcher (("").toList) = '\n' :: after_load ∧
    ∀ code : List Char, 0 < (js_workaround_patcher code).length := by
  constructor
  · decide
  · intro code
    show 0 < (rule2 (rule1 code) ++ '\n' :: after_load).length
    rw [List.length_append]
    simp

theorem patcher_changes (y : List Char) : js_workaround_patcher y ≠ y := by
  intro heq
  have hfinal : rule2 (rule1 y) ++ '\n' :: after_load = y := heq
  rcases h1 : greedyMatch urlPatStart urlPatEnd y with _ | p1
  · have ht1 : rule1 y = y := reSubGreedy_no_match h1
    rcases h2 : greedyMatch modPatStart modPatEnd y with _ | p2
    · have ht2 : rule2 y = y := reSubGreedy_no_match h2
      rw [ht1, ht2] at hfinal
      have hlen := congrArg List.length hfinal
      rw [List.length_append, List.length_cons] at hlen
      omega
    · obtain ⟨i2, e2⟩ := p2
      have hyc : y[i2]? = some 'i' := match_char_at_start h2 (by decide)
      have ht2 : (rule2 y)[i2]? = some 'l' :=
        reSubGreedy_replaced_char (by decide) (by decide) h2 (by decide)
      have hlt : i2 < (rule2 y).length :=
        reSubGreedy_len_gt (by decide) (by decide) (by decide) h2
      rw [ht1] at hfinal
      have hcmp : (rule2 y ++ '\n' :: after_load)[i2]? = y[i2]? := by rw [hfinal]
      rw [getElem_append_lt _ _ i2 hlt, ht2, hyc] at hcmp
      exact absurd hcmp (by decide)
  · obtain ⟨i1, e1⟩ := p1
    have hy1 : y[i1]? = some 'i' := match_char_at_start h1 (by decide)
    have ht1r : (rule1 y)[i1]? = some 'r' :=
      reSubGreedy_replaced_char (by decide) (by decide) h1 (by decide)
    have hlt1 : i1 < (rule1 y).length :=
      reSubGreedy_len_gt (by decide) (by decide) (by decide) h1
    rcases h2 : greedyMatch modPatStart modPatEnd (rule1 y) with _ | p2
    · have ht2 : rule2 (rule1 y) = rule1 y := reSubGreedy_no_match h2
      rw [ht2] at hfinal
      have hcmp : (rule1 y ++ '\n' :: after_load)[i1]? = y[i1]? := by rw [hfinal]
      rw [getElem_append_lt _ _ i1 hlt1, ht1r, hy1] at hcmp
      exact absurd hcmp (by decide)
    · obtain ⟨i2, e2⟩ := p2
      have ht1i2 : (rule1 y)[i2]? = some 'i' := match_char_at_start h2 (by decide)
      have hne : i1 ≠ i2 := by
        intro he
        rw [← he] at ht1i2
        rw [ht1r] at ht1i2
        exact absurd ht1i2 (by decide)
      have hlt2 : i2 < (rule2 (rule1 y)).length :=
        reSubGreedy_len_gt (by decide) (by decide) (by decide) h2
      rcases Nat.lt_or_ge i2 i1 with hord | hord
      · have hyi2 : y[i2]? = some 'i' := by
          have hpres : (rule1 y)[i2]? = y[i2]? :=
            reSubGreedy_preserved_char (by decide) (by decide) h1 hord
          rw [← hpres]
          exact ht1i2
        have ht2l : (rule2 (rule1 y))[i2]? = some 'l' :=
          reSubGreedy_replaced_char (by decide) (by decide) h2 (by decide)
        have hcmp : (rule2 (rule1 y) ++ '\n' :: after_load)[i2]? = y[i2]? := by rw [hfinal]
        rw [getElem_append_lt _ _ i2 hlt2, ht2l, hyi2] at hcmp
        exact absurd hcmp (by decide)
      · have hlt12 : i1 < i2 := Nat.lt_of_le_of_ne hord hne
        have ht2r : (rule2 (rule1 y))[i1]? = some 'r' := by
          have hpres : (rule2 (rule1 y))[i1]? = (rule1 y)[i1]? :=
            reSubGreedy_preserved_char (by decide) (by decide) h2 hlt12
          rw [hpres]
          exact ht1r
        have hcmp : (rule2 (rule1 y) ++ '\n' :: after_load)[i1]? = y[i1]? := by rw [hfinal]
        rw [getElem_append_lt _ _ i1 (Nat.lt_trans hlt12 hlt2), ht2r, hy1] at hcmp
        exact absurd hcmp (by decide)

/-- Claim C7.  The patcher is not idempotent: for every input, applying
the patcher to its own output produces a different (further-appended)
result, since the final append step is unconditional.  This follows from
the stronger fact patcher_changes that the patcher never returns its
input unchanged. -/
theorem patcher_not_idempotent (x : List Char) :
    js_workaround_patcher (js_workaround_patcher x) ≠ js_workaround_patcher x :=
  patcher_changes (js_workaround_patcher x)

/-- Claim C7, witness at the empty artifact. -/
theorem patcher_not_idempotent_witness :
    js_workaround_patcher (js_workaround_patcher (("").toList)) ≠
      js_workaround_patcher (("").toList) :=
  patcher_not_idempotent (("").toList)

theorem drop_append_self (a b : List Char) : (a ++ b).drop a.length = b := by
  have h := drop_append_len a b 0
  rw [Nat.add_zero] at h
  rw [h, List.drop_zero]

/-- Claim C5.  Rule application is strictly sequential (rule 2 runs on the
output of rule 1) and the final append is unconditional: on a minimal
artifact made of a first-rule block, a newline, a second-rule block and
unrelated trailing content, the patcher yields exactly the first
replacement, the newline, the second replacement, the trailing content,
and the append block.  The two hypotheses state that each rule matches
exactly its own block, which is the formal reading of the trailing
content being unrelated (it contains no end markers that would extend
the greedy matches). -/
theorem patcher_sequential_scenario (mid1 mid2 T : List Char)
    (h1 : greedyMatch urlPatStart urlPatEnd
        (urlPatStart ++ mid1 ++ urlPatEnd ++ '\n' :: (modPatStart ++ mid2 ++ modPatEnd ++ T)) =
        some (0, urlPatStart.length + mid1.length + urlPatEnd.length))
    (h2 : greedyMatch modPatStart modPatEnd
        (returnImports ++ '\n' :: (modPatStart ++ mid2 ++ modPatEnd ++ T)) =
        some (returnImports.length + 1,
          returnImports.length + 1 + (modPatStart.length + mid2.length + modPatEnd.length))) :
    js_workaround_patcher
        (urlPatStart ++ mid1 ++ urlPatEnd ++ '\n' :: (modPatStart ++ mid2 ++ modPatEnd ++ T)) =
      returnImports ++ '\n' :: (letResult ++ T ++ '\n' :: after_load) := by
  unfold js_workaround_patcher
  have hr1 : rule1
      (urlPatStart ++ mid1 ++ urlPatEnd ++ '\n' :: (modPatStart ++ mid2 ++ modPatEnd ++ T)) =
      returnImports ++ '\n' :: (modPatStart ++ mid2 ++ modPatEnd ++ T) := by
    unfold rule1
    rw [reSubGreedy_match (by decide : urlPatEnd ≠ []) h1]
    rw [List.take_zero, List.nil_append]
    rw [show urlPatStart.length + mid1.length + urlPatEnd.length =
        (urlPatStart ++ mid1 ++ urlPatEnd).length by simp only [List.length_append]]
    rw [drop_append_self]
  rw [hr1]
  have hr2 : rule2 (returnImports ++ '\n' :: (modPatStart ++ mid2 ++ modPatEnd ++ T)) =
      (returnImports ++ ('\n' :: [])) ++ (letResult ++ T) := by
    unfold rule2
    rw [reSubGreedy_match (by decide : modPatEnd ≠ []) h2]
    rw [show returnImports.length + 1 + (modPatStart.length + mid2.length + modPatEnd.length) =
        returnImports.length + (1 + (modPatStart ++ mid2 ++ modPatEnd).length) by
      simp only [List.length_append]; omega]
    rw [drop_append_len]
    rw [show 1 + (modPatStart ++ mid2 ++ modPatEnd).length =
        (modPatStart ++ mid2 ++ modPatEnd).length + 1 by omega]
    rw [List.drop_succ_cons]
    rw [drop_append_self]
    rw [take_append_len]
    simp
  rw [hr2]
  simp [List.append_assoc]

/-- Claim C5, witness at a concrete minimal artifact with one-character
middles and trailing content. -/
theorem patcher_sequential_scenario_witness :
    js_workaround_patcher
        (urlPatStart ++ ('X' :: []) ++ urlPatEnd ++ '\n' ::
          (modPatStart ++ ('Y' :: []) ++ modPatEnd ++ ('Z' :: []))) =
      returnImports ++ '\n' :: (letResult ++ ('Z' :: []) ++ '\n' :: after_load) :=
  patcher_sequential_scenario ('X' :: []) ('Y' :: []) ('Z' :: []) (by decide) (by decide)

/-- Claim C4, counterexample.  The claim states the script's exit status
equals the exit status of the first failing subprocess.  In the
environment where wasm-pack succeeds and gzip exits with status 2, the
run aborts at the gzip call carrying return code 2, but the script's own
exit status is 1 (CPython terminates with status 1 on the uncaught
CalledProcessError), not 2. -/
theorem main_exit_status_counterexample :
    envGzipFail.wasmPackExit = 0 ∧ failedCmd envGzipFail = some ("gzip", 2) ∧
    scriptExit envGzipFail = 1 ∧ scriptExit envGzipFail ≠ envGzipFail.gzipExit := by
  refine ⟨rfl, ?_, ?_, ?_⟩
  · decide
  · decide
  · decide

/-- Claim C4, amended.  When a subprocess invocation of main exits
non-zero, the script aborts immediately at that first failure (the
CalledProcessError of that call propagates and no later step runs), and
the script's own exit status is 1, CPython's status for an uncaught
exception, regardless of the subprocess's exit code; when every step
succeeds the exit status is zero. -/
theorem main_aborts_first_failure_exit_one (env : Env) :
    (env.wasmPackExit ≠ 0 →
      build.main env =
        Except.error (BuildError.calledProcessError ("wasm-pack") env.wasmPackExit) ∧
      scriptExit env = 1) ∧
    (∀ code wasm : List Char, env.wasmPackExit = 0 →
      env.wasmPackOut ("gui.js") = some code →
      env.wasmPackOut ("gui_bg.wasm") = some wasm →
      env.gzipExit ≠ 0 →
      build.main env = Except.error (BuildError.calledProcessError ("gzip") env.gzipExit) ∧
      scriptExit env = 1) ∧
    (∀ st : BuildResult, build.main env = Except.ok st → scriptExit env = 0) := by
  refine ⟨?_, ?_, ?_⟩
  · intro h
    have hm : build.main env =
        Except.error (BuildError.calledProcessError ("wasm-pack") env.wasmPackExit) := by
      simp [build.main, h]
    exact ⟨hm, by simp [scriptExit, hm]⟩
  · intro code wasm h0 hjs hbg hgz
    have hm : build.main env =
        Except.error (BuildError.calledProcessError ("gzip") env.gzipExit) := by
      simp [build.main, h0, hjs, hbg, hgz, update]
    exact ⟨hm, by simp [scriptExit, hm]⟩
  · intro st hm
    simp [scriptExit, hm]

/-- Claim C4, witness for the amended theorem: in envGzipFail the gzip
step is the first failure and the script exits with status 1. -/
theorem main_aborts_first_failure_exit_one_witness :
    build.main envGzipFail =
      Except.error (BuildError.calledProcessError ("gzip") envGzipFail.gzipExit) ∧
    scriptExit envGzipFail = 1 :=
  (main_aborts_first_failure_exit_one envGzipFail).2.1 [] ('w' :: []) rfl (by decide)
    (by decide) (by decide)

/-- Claim C9.  The final copy_tree step of main overwrites destination
files that also exist in the source directory but never deletes files
already present at the destination: a destination file X absent from the
final target/web keeps its original content, and a file Y present in
both ends up with the source version. -/
theorem copy_step_preserves_destination (env : Env) (st : BuildResult) (X Y : String)
    (cx cy cy2 : List Char)
    (hm : build.main env = Except.ok st)
    (hX : st.targetWeb X = none) (hXd : env.appDest X = some cx)
    (hY : st.targetWeb Y = some cy) (_hYd : env.appDest Y = some cy2) :
    st.appDest X = some cx ∧ st.appDest Y = some cy := by
  have hshape : st.appDest = copy_tree st.targetWeb env.appDest := by
    simp only [build.main] at hm
    split at hm
    · simp at hm
    · split at hm
      · simp at hm
      · split at hm
        · simp at hm
        · split at hm
          · simp at hm
          · cases hm
            rfl
  constructor
  · rw [hshape]
    simp only [copy_tree, hX]
    exact hXd
  · rw [hshape]
    simp only [copy_tree, hY]

/-- Claim C9, witness: in envC9 the destination file X (absent from
target/web) keeps its content and Y receives the freshly built source
version. -/
theorem copy_step_preserves_destination_witness :
    stC9.appDest ("X") = some ('x' :: []) ∧ stC9.appDest ("Y") = some ('s' :: []) :=
  copy_step_preserves_destination envC9 stC9 ("X") ("Y") ('x' :: []) ('s' :: []) ('d' :: [])
    rfl (by decide) (by decide) (by decide) (by decide)
